import Mathlib

/-!
Verification of the ProtoScale mesh validation / repair / export engine and
the Redis-backed job store, as a shallow embedding of
`backend/app/mesh/validator.py`, `backend/app/mesh/repair.py`,
`backend/app/mesh/converter.py` and `backend/app/services/job_service.py`.

Conventions of the embedding:
* Python floats are embedded as exact rationals; comparisons against
  thresholds that the code performs on square roots (triangle areas, the
  bounding-box diagonal) are embedded through their squares, which is an
  exact reformulation for nonnegative quantities.
* A trimesh mesh is embedded as its vertex list and triangular face list.
* External collaborators (the random surface sampler and the ray-casting
  backend behind `mesh.ray.intersects_location`, the wall clock, Redis, the
  file system) enter the definitions as explicit arguments or explicit
  state.
-/

/-- A triangle mesh: vertex positions and faces of vertex indices, embedding
the data carried by a `trimesh.Trimesh` object. -/
structure Mesh where
  vertices : List (ℚ × ℚ × ℚ)
  faces : List (ℕ × ℕ × ℕ)
deriving DecidableEq, Repr

/-- Undirected edge, stored with the smaller endpoint first: the embedding of
a row of `edges_sorted` (trimesh sorts each edge so that (a,b) and (b,a)
coincide). -/
def sortPair (a b : ℕ) : ℕ × ℕ :=
  if a ≤ b then (a, b) else (b, a)

/-- The three sorted edges contributed by one triangular face, as in
trimesh, which derives the edge list by listing each face edge. -/
def faceEdges (f : ℕ × ℕ × ℕ) : List (ℕ × ℕ) :=
  [sortPair f.1 f.2.1, sortPair f.2.1 f.2.2, sortPair f.2.2 f.1]

/-- The full sorted-edge list of the mesh (three entries per face), the
embedding of `mesh.edges_sorted`. -/
def edgesSorted (m : Mesh) : List (ℕ × ℕ) :=
  m.faces.flatMap faceEdges

/-- The deduplicated edge list, the embedding of `mesh.edges_unique`.  The
code only ever consumes it through per-edge occurrence counts, which do not
depend on the order, so the first-occurrence order replaces the sorted order
used by numpy. -/
def uniqueEdges (m : Mesh) : List (ℕ × ℕ) :=
  (edgesSorted m).dedup

/-- Number of incidences of an undirected edge in the face list (an edge is
counted once per face slot mentioning it). -/
def edgeCount (m : Mesh) (e : ℕ × ℕ) : ℕ :=
  (edgesSorted m).count e

/-- Embedding of `MeshValidator.is_watertight`, which returns
`mesh.is_watertight`.  Trimesh reports a mesh watertight exactly when every
unique edge is included in exactly two faces of the mesh (the spec glossary
states the same definition). -/
def is_watertight (m : Mesh) : Bool :=
  (uniqueEdges m).all (fun e => edgeCount m e == 2)

/-- Embedding of `mesh.edges_unique_inverse`: for every row of
`edges_sorted`, the index of its unique representative. -/
def edgesUniqueInverse (m : Mesh) : List ℕ :=
  (edgesSorted m).map (fun e => (uniqueEdges m).indexOf e)

/-- Embedding of `MeshValidator.is_manifold`: the code bin-counts
`edges_unique_inverse` and demands that every count equal two
(`np.all(edge_face_count == 2)`; `np.all` of an empty array is true). -/
def is_manifold (m : Mesh) : Bool :=
  (List.range (uniqueEdges m).length).all
    (fun i => (edgesUniqueInverse m).count i == 2)

/-- A regular tetrahedron's combinatorics: the canonical closed test mesh. -/
def tet : Mesh :=
  { vertices := [(0, 0, 0), (1, 0, 0), (0, 1, 0), (0, 0, 1)]
    faces := [(0, 1, 2), (0, 3, 1), (0, 2, 3), (1, 3, 2)] }

theorem edgesSorted_dedup_nodup (m : Mesh) : (uniqueEdges m).Nodup :=
  List.nodup_dedup _

theorem indexOf_lt_length_of_mem {α : Type} [BEq α] [LawfulBEq α] {e : α} :
    ∀ {l : List α}, e ∈ l → l.indexOf e < l.length := by
  intro l
  induction l with
  | nil => intro h; cases h
  | cons b l ih =>
    intro h
    rw [List.indexOf_cons]
    by_cases hb : b == e
    · simp [hb]
    · simp only [hb, cond_false, List.length_cons]
      have : e ∈ l := by
        cases h with
        | head => exact absurd (by simp) hb
        | tail _ h2 => exact h2
      exact Nat.succ_lt_succ (ih this)

theorem getElem_indexOf_of_mem {α : Type} [BEq α] [LawfulBEq α] {e : α} :
    ∀ {l : List α}, e ∈ l → ∀ hlt : l.indexOf e < l.length, l[l.indexOf e] = e := by
  intro l
  induction l with
  | nil => intro h; cases h
  | cons b l ih =>
    intro h hlt
    by_cases hb : b == e
    · have h0 : (b :: l).indexOf e = 0 := by rw [List.indexOf_cons]; simp [hb]
      simp only [h0, List.getElem_cons_zero]
      exact eq_of_beq hb
    · have hmem : e ∈ l := by
        cases h with
        | head => exact absurd (by simp) hb
        | tail _ h2 => exact h2
      have h1 : (b :: l).indexOf e = l.indexOf e + 1 := by
        rw [List.indexOf_cons]; simp [hb]
      simp only [h1, List.getElem_cons_succ]
      exact ih hmem (indexOf_lt_length_of_mem hmem)

theorem indexOf_getElem_of_nodup {α : Type} [BEq α] [LawfulBEq α] :
    ∀ {l : List α}, l.Nodup → ∀ i (hi : i < l.length), l.indexOf l[i] = i := by
  intro l
  induction l with
  | nil => intro _ i hi; cases hi
  | cons b l ih =>
    intro hn i hi
    have hbl : b ∉ l := (List.nodup_cons.mp hn).1
    cases i with
    | zero => simp [List.indexOf_cons]
    | succ j =>
      have hj : j < l.length := Nat.lt_of_succ_lt_succ hi
      have hmem : l[j] ∈ l := List.getElem_mem hj
      have hne : ¬(b == l[j]) := by
        intro hb
        exact hbl (eq_of_beq hb ▸ hmem)
      simp only [List.getElem_cons_succ, List.indexOf_cons, hne, cond_false]
      rw [ih (List.nodup_cons.mp hn).2 j hj]

theorem count_indexOf_eq_count (l : List (ℕ × ℕ)) (i : ℕ) (hi : i < l.dedup.length) :
    (l.map (fun e => l.dedup.indexOf e)).count i = l.count l.dedup[i] := by
  simp only [List.count, List.countP_map]
  refine List.countP_congr ?_
  intro e he
  have hmem : e ∈ l.dedup := (List.mem_dedup).mpr he
  simp only [Function.comp_apply, beq_iff_eq]
  constructor
  · intro h
    have h2 : i = l.dedup.indexOf e := h.symm
    subst h2
    exact (getElem_indexOf_of_mem hmem (indexOf_lt_length_of_mem hmem)).symm
  · intro h
    subst h
    exact indexOf_getElem_of_nodup l.nodup_dedup i hi

/-- C6: for every mesh in which every unique edge is incident to exactly two
faces (identifying edge (a,b) with (b,a); a face incident through several of
its slots counts once per slot), both the `is_watertight` check and the
`is_manifold` edge/face-adjacency bin-count check return true. -/
theorem C6_two_faces_per_edge_watertight_and_manifold (m : Mesh)
    (h : ∀ e ∈ uniqueEdges m, edgeCount m e = 2) :
    is_watertight m = true ∧ is_manifold m = true := by
  constructor
  · rw [is_watertight, List.all_eq_true]
    intro e he
    exact beq_iff_eq.mpr (h e he)
  · rw [is_manifold, List.all_eq_true]
    intro i hi
    have hi2 : i < (uniqueEdges m).length := by
      simpa using List.mem_range.mp (by simpa using hi)
    have hc : (edgesUniqueInverse m).count i = edgeCount m (uniqueEdges m)[i] :=
      count_indexOf_eq_count (edgesSorted m) i hi2
    have hmem : (uniqueEdges m)[i] ∈ uniqueEdges m := List.getElem_mem hi2
    rw [hc]
    exact beq_iff_eq.mpr (h _ hmem)

/-- Witness for C6: the tetrahedron has every edge in exactly two faces, and
both checks accept it. -/
theorem C6_two_faces_per_edge_watertight_and_manifold_witness :
    is_watertight tet = true ∧ is_manifold tet = true :=
  C6_two_faces_per_edge_watertight_and_manifold tet (by decide)

/-- Shorthand for a vertex position. -/
abbrev Pt := ℚ × ℚ × ℚ

/-- Shorthand for a triangular face of vertex indices. -/
abbrev Face := ℕ × ℕ × ℕ

/-- Default position used to totalize vertex lookup (the data-model invariant
says every face index references a valid vertex, so this default is never hit
on well-formed meshes). -/
def originPt : Pt := (0, 0, 0)

/-- Vertex position referenced by an index. -/
def getVertex (m : Mesh) (i : ℕ) : Pt :=
  m.vertices.getD i originPt

/-- Componentwise difference of two positions. -/
def ptSub (a b : Pt) : Pt :=
  (a.1 - b.1, a.2.1 - b.2.1, a.2.2 - b.2.2)

/-- Cross product of two vectors. -/
def cross (a b : Pt) : Pt :=
  (a.2.1 * b.2.2 - a.2.2 * b.2.1,
   a.2.2 * b.1 - a.1 * b.2.2,
   a.1 * b.2.1 - a.2.1 * b.1)

/-- Squared Euclidean norm. -/
def normSq (a : Pt) : ℚ :=
  a.1 * a.1 + a.2.1 * a.2.1 + a.2.2 * a.2.2

/-- Squared norm of the edge cross product of a face.  The trimesh face area
is `0.5 * sqrt` of this quantity, so every comparison `area ? c` in the code
is embedded as `faceCrossSq ? 4 * c ^ 2`. -/
def faceCrossSq (m : Mesh) (f : Face) : ℚ :=
  normSq (cross (ptSub (getVertex m f.2.1) (getVertex m f.1))
                (ptSub (getVertex m f.2.2) (getVertex m f.1)))

/-- The squared form of the degenerate-area threshold 1e-10 used by
`has_degenerate_faces` and `remove_degenerate`: area < 1e-10 iff
`faceCrossSq < 4e-20`. -/
def degenerateThresholdSq : ℚ := 4 / 10 ^ 20

/-- Embedding of `MeshValidator.has_degenerate_faces`: the number of faces
whose area is strictly below 1e-10 (`np.sum(areas < 1e-10)`). -/
def has_degenerate_faces (m : Mesh) : ℕ :=
  m.faces.countP (fun f => decide (faceCrossSq m f < degenerateThresholdSq))

/-- Round half to even, the rounding used by Python `round` and `np.round`;
applied at 3 decimals by the wall-thickness report and at 8 decimals by the
merge tolerance. -/
def roundHalfEven (x : ℚ) : ℤ :=
  let f := ⌊x⌋
  if x - f < 1 / 2 then f
  else if 1 / 2 < x - f then f + 1
  else if Even f then f else f + 1

/-- Rounding at the trimesh merge tolerance `tol.merge = 1e-8`: vertex
coordinates are compared after rounding to 8 decimal places. -/
def roundQ8 (x : ℚ) : ℚ :=
  (roundHalfEven (x * 10 ^ 8) : ℚ) / 10 ^ 8

/-- The merge key of a vertex: its position rounded at the merge tolerance. -/
def roundPt (p : Pt) : Pt :=
  (roundQ8 p.1, roundQ8 p.2.1, roundQ8 p.2.2)

/-- The vertex list after the merge performed by `merge_vertices` and by mesh
construction with `process=True`: vertices whose positions agree after
rounding at the merge tolerance are collapsed to the first of them, which
keeps its original (unrounded) coordinates. -/
def mergedVertexList (vs : List Pt) : List Pt :=
  (vs.map roundPt).dedup.map
    (fun k => vs.getD ((vs.map roundPt).indexOf k) originPt)

/-- The representative a vertex index is merged into: the first vertex whose
rounded position matches. -/
def vertexRep (vs : List Pt) (i : ℕ) : Pt :=
  vs.getD ((vs.map roundPt).indexOf (roundPt (vs.getD i originPt))) originPt

/-- Index remapping performed by the merge: an index is sent to the position
of its representative in the merged vertex list. -/
def remapIndex (vs : List Pt) (i : ℕ) : ℕ :=
  (mergedVertexList vs).indexOf (vertexRep vs i)

/-- Face remapping induced by `remapIndex`. -/
def remapFace (vs : List Pt) (f : Face) : Face :=
  (remapIndex vs f.1, remapIndex vs f.2.1, remapIndex vs f.2.2)

/-- Embedding of the vertex merge performed by `trimesh.Trimesh.merge_vertices`
and by mesh construction with `process=True`: vertices identical after
rounding at the merge tolerance 1e-8 are collapsed to their first occurrence
and face indices are remapped. -/
def mergeVertices (m : Mesh) : Mesh :=
  { vertices := mergedVertexList m.vertices
    faces := m.faces.map (remapFace m.vertices) }

/-- Embedding of `MeshRepairer.remove_degenerate`: if every face area exceeds
1e-10 the mesh is returned unchanged; otherwise the faces with area at most
1e-10 are dropped (`valid_mask = areas > 1e-10`) and the mesh is rebuilt with
`process=True`, which merges vertices within the merge tolerance. -/
def remove_degenerate (m : Mesh) : Mesh :=
  if m.faces.all (fun f => decide (degenerateThresholdSq < faceCrossSq m f)) then m
  else
    mergeVertices
      { vertices := m.vertices
        faces := m.faces.filter (fun f => decide (degenerateThresholdSq < faceCrossSq m f)) }

theorem indexOf_eq_length_of_not_mem {α : Type} [BEq α] [LawfulBEq α] {e : α} :
    ∀ {l : List α}, e ∉ l → l.indexOf e = l.length := by
  intro l
  induction l with
  | nil => intro _; rfl
  | cons b l ih =>
    intro h
    have hb : ¬(b == e) := by
      intro hb
      exact h (by simp [eq_of_beq hb])
    have he : e ∉ l := fun hm => h (List.mem_cons_of_mem _ hm)
    rw [List.indexOf_cons]
    simp [hb, ih he]

theorem getD_indexOf_self {α : Type} [BEq α] [LawfulBEq α] (u : List α) (d : α) {x : α}
    (h : x ∈ u) : u.getD (u.indexOf x) d = x := by
  have hlt := indexOf_lt_length_of_mem h
  rw [List.getD_eq_getElem _ _ hlt]
  exact getElem_indexOf_of_mem h hlt

theorem vertexRep_mem_merged (vs : List Pt) (i : ℕ) (hi : i < vs.length) :
    vertexRep vs i ∈ mergedVertexList vs := by
  have hpmem : vs.getD i originPt ∈ vs := by
    rw [List.getD_eq_getElem _ _ hi]
    exact List.getElem_mem hi
  have hkmem : roundPt (vs.getD i originPt) ∈ (vs.map roundPt).dedup :=
    List.mem_dedup.mpr (List.mem_map_of_mem roundPt hpmem)
  exact List.mem_map_of_mem _ hkmem

theorem vertexRep_round_eq (vs : List Pt) (i : ℕ) (hi : i < vs.length) :
    roundPt (vertexRep vs i) = roundPt (vs.getD i originPt) ∧ vertexRep vs i ∈ vs := by
  have hpmem : vs.getD i originPt ∈ vs := by
    rw [List.getD_eq_getElem _ _ hi]
    exact List.getElem_mem hi
  have hkmem : roundPt (vs.getD i originPt) ∈ vs.map roundPt :=
    List.mem_map_of_mem roundPt hpmem
  have hlt : (vs.map roundPt).indexOf (roundPt (vs.getD i originPt)) <
      (vs.map roundPt).length := indexOf_lt_length_of_mem hkmem
  have hlt2 : (vs.map roundPt).indexOf (roundPt (vs.getD i originPt)) < vs.length := by
    simpa using hlt
  constructor
  · rw [vertexRep, List.getD_eq_getElem _ _ hlt2]
    have hm : roundPt vs[(vs.map roundPt).indexOf (roundPt (vs.getD i originPt))] =
        (vs.map roundPt)[(vs.map roundPt).indexOf (roundPt (vs.getD i originPt))] :=
      (List.getElem_map roundPt).symm
    rw [hm]
    exact getElem_indexOf_of_mem hkmem hlt
  · rw [vertexRep, List.getD_eq_getElem _ _ hlt2]
    exact List.getElem_mem hlt2

theorem getVertex_mergeVertices (vs : List Pt) (fs : List Face) (i : ℕ)
    (hi : i < vs.length)
    (hsep : ∀ u ∈ vs, ∀ v ∈ vs, roundPt u = roundPt v → u = v) :
    getVertex (mergeVertices { vertices := vs, faces := fs }) (remapIndex vs i) =
      getVertex { vertices := vs, faces := fs } i := by
  have hpmem : vs.getD i originPt ∈ vs := by
    rw [List.getD_eq_getElem _ _ hi]
    exact List.getElem_mem hi
  obtain ⟨hkey, hrepmem⟩ := vertexRep_round_eq vs i hi
  have hrep_eq : vertexRep vs i = vs.getD i originPt :=
    hsep _ hrepmem _ hpmem hkey
  have hmem2 : vertexRep vs i ∈ mergedVertexList vs := vertexRep_mem_merged vs i hi
  calc getVertex (mergeVertices { vertices := vs, faces := fs }) (remapIndex vs i)
      = (mergedVertexList vs).getD
          ((mergedVertexList vs).indexOf (vertexRep vs i)) originPt := rfl
    _ = vertexRep vs i := getD_indexOf_self _ _ hmem2
    _ = vs.getD i originPt := hrep_eq
    _ = getVertex { vertices := vs, faces := fs } i := rfl

theorem faceCrossSq_mergeVertices (vs : List Pt) (fs : List Face) (f : Face)
    (hf1 : f.1 < vs.length) (hf2 : f.2.1 < vs.length) (hf3 : f.2.2 < vs.length)
    (hsep : ∀ u ∈ vs, ∀ v ∈ vs, roundPt u = roundPt v → u = v) :
    faceCrossSq (mergeVertices { vertices := vs, faces := fs }) (remapFace vs f) =
      faceCrossSq { vertices := vs, faces := fs } f := by
  unfold faceCrossSq remapFace
  rw [getVertex_mergeVertices vs fs f.1 hf1 hsep,
    getVertex_mergeVertices vs fs f.2.1 hf2 hsep,
    getVertex_mergeVertices vs fs f.2.2 hf3 hsep]

/-- A mesh with one degenerate face (a repeated vertex index) and one sliver
face of area 2e-9: the sliver face's second and third vertices are 4e-9
apart, within the 1e-8 merge tolerance. -/
def sliverMesh : Mesh :=
  { vertices := [(0, 0, 0), (1, 0, 0), (1, 4 / 10 ^ 9, 0)]
    faces := [(0, 0, 1), (0, 1, 2)] }

/-- Counterexample for C7: on `sliverMesh`, `remove_degenerate` drops the
degenerate face and rebuilds with `process=True`, whose merge collapses the
two vertices that agree after rounding at the merge tolerance; the kept
sliver face (area 2e-9 > 1e-10) becomes a repeated-index face of area zero,
so the validator still counts one degenerate face afterwards. -/
theorem C7_counterexample_tolerance_merge_creates_degenerate :
    has_degenerate_faces (remove_degenerate sliverMesh) = 1 ∧
    has_degenerate_faces (remove_degenerate sliverMesh) ≠ 0 := by
  have hrP0 : roundPt (0, 0, 0) = (0, 0, 0) := by
    norm_num [roundPt, roundQ8, roundHalfEven]
  have hrP1 : roundPt (1, 0, 0) = (1, 0, 0) := by
    norm_num [roundPt, roundQ8, roundHalfEven, Int.floor_eq_iff]
  have hrP2 : roundPt (1, 4 / 10 ^ 9, 0) = (1, 0, 0) := by
    norm_num [roundPt, roundQ8, roundHalfEven, Int.floor_eq_iff, Prod.ext_iff]
  have hfA : faceCrossSq sliverMesh (0, 0, 1) = 0 := by
    norm_num [faceCrossSq, getVertex, sliverMesh, ptSub, cross, normSq,
      List.getD_cons_zero, List.getD_cons_succ]
  have hfB : faceCrossSq sliverMesh (0, 1, 2) = 16 / 10 ^ 18 := by
    norm_num [faceCrossSq, getVertex, sliverMesh, ptSub, cross, normSq,
      List.getD_cons_zero, List.getD_cons_succ]
  have hvs : sliverMesh.vertices = [(0, 0, 0), (1, 0, 0), (1, 4 / 10 ^ 9, 0)] := rfl
  have hfs : sliverMesh.faces = [(0, 0, 1), (0, 1, 2)] := rfl
  have hkeys : ([(0, 0, 0), (1, 0, 0), (1, 4 / 10 ^ 9, 0)] : List Pt).map roundPt =
      [(0, 0, 0), (1, 0, 0), (1, 0, 0)] := by
    simp only [List.map_cons, List.map_nil, hrP0, hrP1, hrP2]
  have hded : ([(0, 0, 0), (1, 0, 0), (1, 0, 0)] : List Pt).dedup =
      [(0, 0, 0), (1, 0, 0)] := by
    rw [List.dedup_cons_of_not_mem
        (by norm_num [Prod.ext_iff, Prod.fst_zero, Prod.snd_zero]),
      List.dedup_cons_of_mem (by norm_num),
      List.dedup_cons_of_not_mem (List.not_mem_nil _), List.dedup_nil]
  have hg0 : ([(0, 0, 0), (1, 0, 0), (1, 4 / 10 ^ 9, 0)] : List Pt).getD 0 originPt =
      (0, 0, 0) := rfl
  have hg1 : ([(0, 0, 0), (1, 0, 0), (1, 4 / 10 ^ 9, 0)] : List Pt).getD 1 originPt =
      (1, 0, 0) := rfl
  have hg2 : ([(0, 0, 0), (1, 0, 0), (1, 4 / 10 ^ 9, 0)] : List Pt).getD 2 originPt =
      (1, 4 / 10 ^ 9, 0) := rfl
  have hmergedL : mergedVertexList [(0, 0, 0), (1, 0, 0), (1, 4 / 10 ^ 9, 0)] =
      [(0, 0, 0), (1, 0, 0)] := by
    rw [mergedVertexList]
    simp only [hkeys]
    rw [hded]
    rfl
  have hall : (sliverMesh.faces.all
      (fun f => decide (degenerateThresholdSq < faceCrossSq sliverMesh f))) = false := by
    rw [hfs, List.all_cons, hfA]
    norm_num [degenerateThresholdSq]
  have hfilter : sliverMesh.faces.filter
      (fun f => decide (degenerateThresholdSq < faceCrossSq sliverMesh f)) = [(0, 1, 2)] := by
    rw [hfs, List.filter_cons, List.filter_cons, List.filter_nil, hfA, hfB]
    norm_num [degenerateThresholdSq]
  have h1 : remove_degenerate sliverMesh =
      { vertices := [(0, 0, 0), (1, 0, 0)], faces := [(0, 1, 1)] } := by
    rw [remove_degenerate, hall]
    simp only [Bool.false_eq_true, if_false, mergeVertices, Mesh.mk.injEq]
    constructor
    · rw [hvs]
      exact hmergedL
    · rw [hfilter, hvs]
      simp only [List.map_cons, List.map_nil, remapFace, remapIndex, vertexRep,
        hg0, hg1, hg2, hrP0, hrP1, hrP2, hkeys, hmergedL]
      decide
  rw [h1]
  have hdeg : faceCrossSq
      ({ vertices := [(0, 0, 0), (1, 0, 0)], faces := [(0, 1, 1)] } : Mesh)
      (0, 1, 1) = 0 := by
    norm_num [faceCrossSq, getVertex, ptSub, cross, normSq,
      List.getD_cons_zero, List.getD_cons_succ]
  constructor
  · rw [has_degenerate_faces]
    rw [show ({ vertices := [(0, 0, 0), (1, 0, 0)], faces := [(0, 1, 1)] } : Mesh).faces =
        [(0, 1, 1)] from rfl]
    rw [List.countP_cons, List.countP_nil, hdeg]
    norm_num [degenerateThresholdSq]
  · rw [has_degenerate_faces]
    rw [show ({ vertices := [(0, 0, 0), (1, 0, 0)], faces := [(0, 1, 1)] } : Mesh).faces =
        [(0, 1, 1)] from rfl]
    rw [List.countP_cons, List.countP_nil, hdeg]
    norm_num [degenerateThresholdSq]

/-- C7 as amended: for every mesh whose faces reference valid vertices and in
which no two distinct vertices coincide after rounding at the 1e-8 merge
tolerance, `remove_degenerate` yields a mesh with zero faces of area below
1e-10 as measured by `has_degenerate_faces`: every kept face has area
strictly above 1e-10, and under the separation hypothesis the `process=True`
rebuild merges only exactly coincident vertices, preserving face areas.  (In
general the rebuild may collapse vertices that are within tolerance but
distinct, creating fresh degenerate faces from kept slivers.) -/
theorem C7_remove_degenerate_clears_count_when_separated (m : Mesh)
    (hvalid : ∀ f ∈ m.faces, f.1 < m.vertices.length ∧
      f.2.1 < m.vertices.length ∧ f.2.2 < m.vertices.length)
    (hsep : ∀ u ∈ m.vertices, ∀ v ∈ m.vertices, roundPt u = roundPt v → u = v) :
    has_degenerate_faces (remove_degenerate m) = 0 := by
  rw [remove_degenerate]
  split
  · next hall =>
    rw [has_degenerate_faces, List.countP_eq_zero]
    intro f hf
    have := List.all_eq_true.mp hall f hf
    simp only [decide_eq_true_eq] at this ⊢
    exact not_lt.mpr (le_of_lt this)
  · next hall =>
    rw [has_degenerate_faces]
    have hfaces :
        (mergeVertices
          { vertices := m.vertices,
            faces := m.faces.filter (fun f => decide (degenerateThresholdSq < faceCrossSq m f)) }).faces =
        (m.faces.filter (fun f => decide (degenerateThresholdSq < faceCrossSq m f))).map
          (remapFace m.vertices) := rfl
    rw [hfaces, List.countP_map, List.countP_eq_zero]
    intro f hf
    have hmemf : f ∈ m.faces := (List.mem_filter.mp hf).1
    have hkeep := (List.mem_filter.mp hf).2
    simp only [decide_eq_true_eq] at hkeep
    simp only [Function.comp_apply, decide_eq_true_eq]
    obtain ⟨hb1, hb2, hb3⟩ := hvalid f hmemf
    have hinv := faceCrossSq_mergeVertices m.vertices
      (m.faces.filter (fun f => decide (degenerateThresholdSq < faceCrossSq m f))) f
      hb1 hb2 hb3 hsep
    rw [hinv]
    exact not_lt.mpr (le_of_lt hkeep)

/-- A well-separated mesh with one degenerate face, exercising the rebuild
branch of `remove_degenerate`. -/
def mixMesh : Mesh :=
  { vertices := [(0, 0, 0), (1, 0, 0), (0, 1, 0)]
    faces := [(0, 0, 1), (0, 1, 2)] }

/-- Witness for C7 as amended: `mixMesh` has valid face indices and pairwise
tolerance-separated vertices, and the rebuild branch leaves no degenerate
face. -/
theorem C7_remove_degenerate_clears_count_when_separated_witness :
    has_degenerate_faces (remove_degenerate mixMesh) = 0 :=
  C7_remove_degenerate_clears_count_when_separated mixMesh (by decide)
    (by
      intro u hu v hv h
      fin_cases hu <;> fin_cases hv <;>
        first
          | rfl
          | (exfalso
             norm_num [roundPt, roundQ8, roundHalfEven, Prod.ext_iff,
               Int.floor_eq_iff] at h))

/-- Ascending sort of one face's three vertex indices, the embedding of a row
of `np.sort(faces, axis=1)`. -/
def sortTriple (f : Face) : Face :=
  if f.1 ≤ f.2.1 then
    if f.2.1 ≤ f.2.2 then (f.1, f.2.1, f.2.2)
    else if f.1 ≤ f.2.2 then (f.1, f.2.2, f.2.1)
    else (f.2.2, f.1, f.2.1)
  else
    if f.1 ≤ f.2.2 then (f.2.1, f.1, f.2.2)
    else if f.2.1 ≤ f.2.2 then (f.2.1, f.2.2, f.1)
    else (f.2.2, f.2.1, f.1)

/-- Lexicographic comparison of faces, the row order used by `np.unique`. -/
def faceLe (f g : Face) : Bool :=
  f.1 < g.1 || (f.1 == g.1 && (f.2.1 < g.2.1 || (f.2.1 == g.2.1 && f.2.2 ≤ g.2.2)))

/-- Ordered insertion for `sortFaces`. -/
def insertFace (f : Face) : List Face → List Face
  | [] => [f]
  | g :: l => if faceLe f g then f :: g :: l else g :: insertFace f l

/-- Insertion sort on faces: `np.unique` returns its unique rows in
lexicographically sorted order. -/
def sortFaces : List Face → List Face
  | [] => []
  | f :: l => insertFace f (sortFaces l)

/-- The sub-list of faces keeping, for every distinct sorted vertex triple,
the face at the first index realizing it — the faces `np.unique(...,
return_index=True)` selects, in their original order. -/
def firstOccFaces (m : Mesh) : List Face :=
  let keys := m.faces.map sortTriple
  keys.dedup.map (fun k => m.faces.getD (keys.indexOf k) (0, 0, 0))

/-- Embedding of `MeshRepairer.remove_duplicate_faces` together with the
removal count the code computes and logs.  Faces are compared through their
sorted index triples; when nothing is duplicated the mesh is returned
unchanged, otherwise the first occurrence of every distinct triple is kept
(in the sorted key order `np.unique` produces) and the mesh is rebuilt with
`process=True`, which merges coincident vertices. -/
def remove_duplicate_faces (m : Mesh) : Mesh × ℕ :=
  let keys := m.faces.map sortTriple
  if keys.dedup.length = keys.length then (m, 0)
  else
    let kept := (sortFaces keys.dedup).map (fun k => m.faces.getD (keys.indexOf k) (0, 0, 0))
    (mergeVertices { vertices := m.vertices, faces := kept },
     m.faces.length - keys.dedup.length)

theorem insertFace_perm (f : Face) : ∀ l : List Face, (insertFace f l).Perm (f :: l) := by
  intro l
  induction l with
  | nil => exact List.Perm.refl _
  | cons g l ih =>
    rw [insertFace]
    split
    · exact List.Perm.refl _
    · exact (ih.cons g).trans (List.Perm.swap f g l)

theorem sortFaces_perm : ∀ l : List Face, (sortFaces l).Perm l := by
  intro l
  induction l with
  | nil => exact List.Perm.refl _
  | cons f l ih =>
    rw [sortFaces]
    exact (insertFace_perm f (sortFaces l)).trans (ih.cons f)

theorem nodup_of_dedup_length {α : Type} [DecidableEq α] {l : List α}
    (h : l.dedup.length = l.length) : l.Nodup := by
  have hsub : l.dedup.Sublist l := List.dedup_sublist l
  have : l.dedup = l := hsub.eq_of_length h
  exact this ▸ l.nodup_dedup

/-- The claim of C8, stated over the embedding: on a mesh with duplicated
sorted triples, `remove_duplicate_faces` keeps (up to the reordering done by
`np.unique` and the index remap of the `process=True` rebuild) exactly the
first occurrence of each distinct sorted triple, one face per group, and
reports as removal count the number of dropped faces; on a mesh without
duplicates it returns the mesh unchanged with count zero.  The final
conjunct is the spec scenario: one triangle present twice is reduced to a
single copy with removal count 1. -/
theorem C8_remove_duplicate_first_occurrences (m : Mesh) :
    ((m.faces.map sortTriple).Nodup → remove_duplicate_faces m = (m, 0)) ∧
    (¬(m.faces.map sortTriple).Nodup →
      ((remove_duplicate_faces m).1.faces).Perm
          ((firstOccFaces m).map (remapFace m.vertices)) ∧
      (remove_duplicate_faces m).2 =
          m.faces.length - (m.faces.map sortTriple).dedup.length) ∧
    ((firstOccFaces m).map sortTriple = (m.faces.map sortTriple).dedup) ∧
    ((remove_duplicate_faces
        { vertices := [(0, 0, 0), (1, 0, 0), (0, 1, 0)],
          faces := [(0, 1, 2), (0, 1, 2)] }).1.faces = [(0, 1, 2)] ∧
      (remove_duplicate_faces
        { vertices := [(0, 0, 0), (1, 0, 0), (0, 1, 0)],
          faces := [(0, 1, 2), (0, 1, 2)] }).2 = 1) := by
  refine ⟨?_, ?_, ?_, ?_⟩
  · intro hnd
    rw [remove_duplicate_faces]
    simp [List.dedup_eq_self.mpr hnd]
  · intro hnd
    have hlen : ¬((m.faces.map sortTriple).dedup.length = (m.faces.map sortTriple).length) :=
      fun h => hnd (nodup_of_dedup_length h)
    constructor
    · rw [remove_duplicate_faces]
      simp only [hlen, if_false]
      have hfaces :
          (mergeVertices
            { vertices := m.vertices,
              faces := (sortFaces (m.faces.map sortTriple).dedup).map
                (fun k => m.faces.getD ((m.faces.map sortTriple).indexOf k) (0, 0, 0)) }).faces =
          ((sortFaces (m.faces.map sortTriple).dedup).map
            (fun k => m.faces.getD ((m.faces.map sortTriple).indexOf k) (0, 0, 0))).map
              (remapFace m.vertices) := rfl
      rw [hfaces]
      rw [firstOccFaces]
      refine List.Perm.map _ (List.Perm.map _ ?_)
      exact sortFaces_perm _
    · rw [remove_duplicate_faces]
      simp only [hlen, if_false]
  · rw [firstOccFaces]
    simp only [List.map_map]
    have : ∀ k ∈ (m.faces.map sortTriple).dedup,
        (sortTriple ∘ fun k => m.faces.getD ((m.faces.map sortTriple).indexOf k) (0, 0, 0)) k
          = k := by
      intro k hk
      have hkk : k ∈ m.faces.map sortTriple := List.mem_dedup.mp hk
      have hlt : (m.faces.map sortTriple).indexOf k < (m.faces.map sortTriple).length :=
        indexOf_lt_length_of_mem hkk
      have hlt2 : (m.faces.map sortTriple).indexOf k < m.faces.length := by
        simpa using hlt
      simp only [Function.comp_apply]
      rw [List.getD_eq_getElem _ _ hlt2]
      have hmap : sortTriple m.faces[(m.faces.map sortTriple).indexOf k] =
          (m.faces.map sortTriple)[(m.faces.map sortTriple).indexOf k] :=
        (List.getElem_map sortTriple).symm
      rw [hmap]
      exact getElem_indexOf_of_mem hkk hlt
    calc (m.faces.map sortTriple).dedup.map
          (sortTriple ∘ fun k => m.faces.getD ((m.faces.map sortTriple).indexOf k) (0, 0, 0))
        = (m.faces.map sortTriple).dedup.map id := List.map_congr_left this
      _ = (m.faces.map sortTriple).dedup := List.map_id _

  · have hrA : roundPt (0, 0, 0) = (0, 0, 0) := by
      norm_num [roundPt, roundQ8, roundHalfEven]
    have hrB : roundPt (1, 0, 0) = (1, 0, 0) := by
      norm_num [roundPt, roundQ8, roundHalfEven, Int.floor_eq_iff]
    have hrC : roundPt (0, 1, 0) = (0, 1, 0) := by
      norm_num [roundPt, roundQ8, roundHalfEven, Int.floor_eq_iff]
    have hkeys3 : ([(0, 0, 0), (1, 0, 0), (0, 1, 0)] : List Pt).map roundPt =
        [(0, 0, 0), (1, 0, 0), (0, 1, 0)] := by
      simp only [List.map_cons, List.map_nil, hrA, hrB, hrC]
    have hded3 : ([(0, 0, 0), (1, 0, 0), (0, 1, 0)] : List Pt).dedup =
        [(0, 0, 0), (1, 0, 0), (0, 1, 0)] := by
      rw [List.dedup_cons_of_not_mem
          (by norm_num [Prod.ext_iff, Prod.fst_zero, Prod.snd_zero]),
        List.dedup_cons_of_not_mem (by norm_num [Prod.ext_iff]),
        List.dedup_cons_of_not_mem (List.not_mem_nil _), List.dedup_nil]
    have hmerged3 : mergedVertexList [(0, 0, 0), (1, 0, 0), (0, 1, 0)] =
        [(0, 0, 0), (1, 0, 0), (0, 1, 0)] := by
      rw [mergedVertexList]
      simp only [hkeys3]
      rw [hded3]
      rfl
    have hG0 : ([(0, 0, 0), (1, 0, 0), (0, 1, 0)] : List Pt).getD 0 originPt =
        (0, 0, 0) := rfl
    have hG1 : ([(0, 0, 0), (1, 0, 0), (0, 1, 0)] : List Pt).getD 1 originPt =
        (1, 0, 0) := rfl
    have hG2 : ([(0, 0, 0), (1, 0, 0), (0, 1, 0)] : List Pt).getD 2 originPt =
        (0, 1, 0) := rfl
    have hmain : remove_duplicate_faces
        { vertices := [(0, 0, 0), (1, 0, 0), (0, 1, 0)],
          faces := [(0, 1, 2), (0, 1, 2)] } =
        (mergeVertices
          { vertices := [(0, 0, 0), (1, 0, 0), (0, 1, 0)], faces := [(0, 1, 2)] }, 1) := rfl
    rw [hmain]
    constructor
    · rw [show (mergeVertices
          { vertices := [(0, 0, 0), (1, 0, 0), (0, 1, 0)], faces := [(0, 1, 2)] }).faces =
          ([(0, 1, 2)] : List Face).map
            (remapFace [(0, 0, 0), (1, 0, 0), (0, 1, 0)]) from rfl]
      simp only [List.map_cons, List.map_nil, remapFace, remapIndex, vertexRep,
        hG0, hG1, hG2, hrA, hrB, hrC, hkeys3, hmerged3]
      decide
    · rfl

/-- A mesh consisting of one triangle stored twice. -/
def dupTriMesh : Mesh :=
  { vertices := [(0, 0, 0), (1, 0, 0), (0, 1, 0)]
    faces := [(0, 1, 2), (0, 1, 2)] }

/-- Witness for C8: the duplicated-triangle mesh has duplicated sorted
triples, and the deduplication branch of the theorem applies to it. -/
theorem C8_remove_duplicate_first_occurrences_witness :
    ¬((dupTriMesh.faces.map sortTriple).Nodup) ∧
    ((remove_duplicate_faces dupTriMesh).1.faces).Perm
        ((firstOccFaces dupTriMesh).map (remapFace dupTriMesh.vertices)) ∧
    (remove_duplicate_faces dupTriMesh).2 =
        dupTriMesh.faces.length - (dupTriMesh.faces.map sortTriple).dedup.length :=
  ⟨by decide, (C8_remove_duplicate_first_occurrences dupTriMesh).2.1 (by decide)⟩

/-- Fold-based minimum of a rational list. -/
def qListMin : List ℚ → Option ℚ
  | [] => none
  | d :: l =>
    match qListMin l with
    | none => some d
    | some r => some (min d r)

theorem qListMin_spec : ∀ l : List ℚ, l ≠ [] →
    ∃ v, qListMin l = some v ∧ v ∈ l ∧ ∀ d ∈ l, v ≤ d := by
  intro l
  induction l with
  | nil => intro h; exact absurd rfl h
  | cons d l ih =>
    intro _
    by_cases hl : l = []
    · subst hl
      refine ⟨d, rfl, List.mem_singleton.mpr rfl, ?_⟩
      intro x hx
      rw [List.mem_singleton.mp hx]
    · obtain ⟨v, hv, hvmem, hvle⟩ := ih hl
      refine ⟨min d v, ?_, ?_, ?_⟩
      · rw [qListMin, hv]
      · rcases min_choice d v with h | h
        · rw [h]; exact List.mem_cons_self _ _
        · rw [h]; exact List.mem_cons_of_mem _ hvmem
      · intro x hx
        cases List.mem_cons.mp hx with
        | inl h => exact h ▸ min_le_left _ _
        | inr h => exact le_trans (min_le_right _ _) (hvle x h)

/-- Seeded fold minimum / maximum, used for the bounding box. -/
def qFoldMin (d : ℚ) (l : List ℚ) : ℚ := l.foldl min d

/-- See `qFoldMin`. -/
def qFoldMax (d : ℚ) (l : List ℚ) : ℚ := l.foldl max d

/-- Square of `mesh.scale`: trimesh defines the scale of a mesh as the length
of the diagonal of its axis-aligned bounding box, so its square is the sum of
the squared per-axis extents.  The code only uses the scale inside the
comparison `thicknesses < mesh.scale * 0.5`, which the embedding performs
through this square. -/
def meshScaleSq (m : Mesh) : ℚ :=
  match m.vertices with
  | [] => 0
  | v :: vs =>
    let ex := qFoldMax v.1 (vs.map (·.1)) - qFoldMin v.1 (vs.map (·.1))
    let ey := qFoldMax v.2.1 (vs.map (·.2.1)) - qFoldMin v.2.1 (vs.map (·.2.1))
    let ez := qFoldMax v.2.2 (vs.map (·.2.2)) - qFoldMin v.2.2 (vs.map (·.2.2))
    ex * ex + ey * ey + ez * ez

/-- The wall-thickness sub-report of the validator.  The code returns a
Python dict; keys it leaves out of a particular dict are embedded as `none`
(`min_thickness`, `avg_thickness`, `rayFailure`) or `0` (`thin_areas`). -/
structure WallResult where
  min_thickness : Option ℚ
  avg_thickness : Option ℚ
  thin_areas : ℕ
  passes : Bool
  rayFailure : Option String
deriving DecidableEq, Repr

/-- The dict `{min_thickness: None, avg_thickness: None, thin_areas: 0,
passes: False}` returned when no ray hit survives. -/
def emptyWallResult : WallResult :=
  { min_thickness := none, avg_thickness := none, thin_areas := 0,
    passes := false, rayFailure := none }

/-- Python `round(x, 3)` as used on the reported thicknesses. -/
def round3 (x : ℚ) : ℚ :=
  (roundHalfEven (x * 1000) : ℚ) / 1000

/-- `Config.MIN_WALL_THICKNESS_MM`, the default minimum wall threshold. -/
def MIN_WALL_THICKNESS_MM : ℚ := 6 / 5

/-- The filter `thicknesses < mesh.scale * 0.5` of the code: for the scale s
(a nonnegative square root), d < s / 2 holds iff d is negative or 4 d^2 is
below the squared scale. -/
def keepThickness (scaleSq d : ℚ) : Bool :=
  decide (d < 0 ∨ 4 * d ^ 2 < scaleSq)

/-- Distances that survive the half-scale filter of
`check_wall_thickness`.  The hits are the answer of the external ray
backend `mesh.ray.intersects_location(ray_origins, ray_directions)` for the
rays cast from the surface samples, given as (ray index, distance) pairs:
the backend reports every intersection location of every ray, and the code
turns each location into the distance `norm(location - ray_origins[index])`,
which equals the ray parameter because the directions are unit normals. -/
def validDistances (m : Mesh) (hits : List (ℕ × ℚ)) : List ℚ :=
  (hits.map (·.2)).filter (fun d => keepThickness (meshScaleSq m) d)

/-- Embedding of `MeshValidator.check_wall_thickness` over the answer of the
external ray backend (see `validDistances`).  With no intersection at all, or
none surviving the half-scale filter, the code returns the empty report;
otherwise the rounded minimum and mean of the surviving distances, the count
strictly below the threshold, and `passes = (min_measured >= min_thickness)`
computed on the unrounded minimum. -/
def check_wall_thickness (m : Mesh) (minTh : ℚ) (hits : List (ℕ × ℚ)) : WallResult :=
  if hits.isEmpty then emptyWallResult
  else
    match qListMin (validDistances m hits) with
    | none => emptyWallResult
    | some minMeasured =>
      { min_thickness := some (round3 minMeasured)
        avg_thickness :=
          some (round3 ((validDistances m hits).sum / (validDistances m hits).length))
        thin_areas := (validDistances m hits).countP (fun d => decide (d < minTh))
        passes := decide (minTh ≤ minMeasured)
        rayFailure := none }

/-- Modelled from the spec: the wall-thickness computation as §4.1 words it,
recording for each surface sample only the distance to the first opposing
intersection of its inward ray (the nearest reported hit of that ray), then
discarding distances exceeding half the mesh scale, and reporting the
unrounded minimum and mean of what remains.  It consumes the same
ray-backend answer as `check_wall_thickness` and exists only to be compared
against it. -/
def specCheckWallThickness (m : Mesh) (minTh : ℚ) (hits : List (ℕ × ℚ)) : WallResult :=
  let rayIdxs := (hits.map (·.1)).dedup
  let firsts := rayIdxs.filterMap
    (fun i => qListMin ((hits.filter (fun h => h.1 == i)).map (·.2)))
  let valid := firsts.filter
    (fun d => decide (d < 0 ∨ 4 * d ^ 2 ≤ meshScaleSq m))
  match qListMin valid with
  | none => emptyWallResult
  | some minMeasured =>
    { min_thickness := some minMeasured
      avg_thickness := some (valid.sum / valid.length)
      thin_areas := valid.countP (fun d => decide (d < minTh))
      passes := decide (minTh ≤ minMeasured)
      rayFailure := none }

/-- The validation report, embedding of the dict built by
`MeshValidator.validate`. -/
structure Report where
  watertight : Bool
  manifold : Bool
  degenerate_faces : ℕ
  wall_thickness : Option WallResult
  is_valid : Bool
deriving DecidableEq, Repr

/-- Embedding of `MeshValidator.validate`.  The ray-casting backend is the
external collaborator that can fail: its outcome is passed in as either the
hit list or the raised message.  The code guards the wall-thickness check
with `try/except` and on failure stores `{"passes": True, "error": str(e)}`
in the wall-thickness slot; the check is only attempted on watertight
meshes. -/
def validate (m : Mesh) (ray : Except String (List (ℕ × ℚ))) : Report :=
  let watertight := is_watertight m
  let manifold := is_manifold m
  let degenerate_count := has_degenerate_faces m
  let thickness :=
    if watertight then
      match ray with
      | Except.ok hits => some (check_wall_thickness m MIN_WALL_THICKNESS_MM hits)
      | Except.error e =>
        some { min_thickness := none, avg_thickness := none, thin_areas := 0,
               passes := true, rayFailure := some e }
    else none
  { watertight := watertight
    manifold := manifold
    degenerate_faces := degenerate_count
    wall_thickness := thickness
    is_valid := watertight && manifold && (degenerate_count == 0) }

/-- A degenerate closed surface of two coincident triangles with opposite
winding: every edge lies in exactly two faces, so trimesh reports it
watertight; its bounding box has squared diagonal 100. -/
def pillow : Mesh :=
  { vertices := [(0, 0, 0), (6, 0, 0), (0, 8, 0)]
    faces := [(0, 1, 2), (0, 2, 1)] }

/-- Counterexample for C5: the claim describes `check_wall_thickness` as
recording, per surface sample, the distance to the first opposing
intersection of its ray; the code instead keeps the distance of every
intersection the ray backend reports.  On the watertight pillow mesh with
one sampled ray whose inward cast crosses two surfaces (distances 1 and 2,
both below half the scale 10), the code averages both crossings (mean 3/2)
while the claimed per-sample-first reading yields mean 1, so the two
disagree. -/
theorem C5_counterexample_all_intersections_recorded :
    is_watertight pillow = true ∧
    check_wall_thickness pillow MIN_WALL_THICKNESS_MM [(0, 1), (0, 2)] ≠
      specCheckWallThickness pillow MIN_WALL_THICKNESS_MM [(0, 1), (0, 2)] := by
  refine ⟨by decide, ?_⟩
  have h1 : check_wall_thickness pillow MIN_WALL_THICKNESS_MM [(0, 1), (0, 2)] =
      { min_thickness := some 1, avg_thickness := some (3 / 2), thin_areas := 1,
        passes := false, rayFailure := none } := by
    norm_num [check_wall_thickness, validDistances, keepThickness, meshScaleSq, pillow,
      qFoldMax, qFoldMin, qListMin, emptyWallResult, round3, roundHalfEven,
      MIN_WALL_THICKNESS_MM, List.filter, Int.floor_eq_iff]
  have h2 : specCheckWallThickness pillow MIN_WALL_THICKNESS_MM [(0, 1), (0, 2)] =
      { min_thickness := some 1, avg_thickness := some 1, thin_areas := 1,
        passes := false, rayFailure := none } := by
    norm_num [specCheckWallThickness, keepThickness, meshScaleSq, pillow,
      qFoldMax, qFoldMin, qListMin, emptyWallResult, MIN_WALL_THICKNESS_MM,
      List.filter, List.filterMap, List.dedup]
  rw [h1, h2]
  intro hcon
  have := congrArg WallResult.avg_thickness hcon
  simp only [Option.some.injEq] at this
  norm_num at this

/-- C5 as amended: `check_wall_thickness` keeps the distance of every
intersection the ray backend reports (including the re-intersection with the
originating surface of the outward-offset origin, and later crossings of the
same ray), filters out those not strictly below half the mesh scale, returns
the empty failing report when no distance survives, and otherwise reports the
rounded minimum and mean of the surviving distances, the count strictly
below the threshold, and passes exactly when every surviving distance
reaches the threshold. -/
theorem C5_check_wall_thickness_characterization (m : Mesh) (minTh : ℚ)
    (hits : List (ℕ × ℚ)) :
    (validDistances m hits = [] →
      check_wall_thickness m minTh hits = emptyWallResult) ∧
    (validDistances m hits ≠ [] →
      ∃ dmin, dmin ∈ validDistances m hits ∧
        (∀ d ∈ validDistances m hits, dmin ≤ d) ∧
        check_wall_thickness m minTh hits =
          { min_thickness := some (round3 dmin)
            avg_thickness :=
              some (round3 ((validDistances m hits).sum / (validDistances m hits).length))
            thin_areas := (validDistances m hits).countP (fun d => decide (d < minTh))
            passes := decide (minTh ≤ dmin)
            rayFailure := none } ∧
        ((check_wall_thickness m minTh hits).passes = true ↔
          ∀ d ∈ validDistances m hits, minTh ≤ d)) := by
  constructor
  · intro hv
    rw [check_wall_thickness]
    split
    · rfl
    · rw [hv]
      rfl
  · intro hv
    have hhits : hits ≠ [] := by
      intro hnil
      subst hnil
      exact hv rfl
    have hemp : hits.isEmpty = false := by
      cases hits with
      | nil => exact absurd rfl hhits
      | cons a l => rfl
    obtain ⟨v, hvq, hvmem, hvle⟩ := qListMin_spec _ hv
    refine ⟨v, hvmem, hvle, ?_, ?_⟩
    · rw [check_wall_thickness, hemp]
      simp only [Bool.false_eq_true, if_false, hvq]
    · have hpass : (check_wall_thickness m minTh hits).passes = decide (minTh ≤ v) := by
        rw [check_wall_thickness, hemp]
        simp only [Bool.false_eq_true, if_false, hvq]
      rw [hpass]
      simp only [decide_eq_true_eq]
      constructor
      · intro h d hd
        exact le_trans h (hvle d hd)
      · intro h
        exact h v hvmem

/-- Witness for C5: on the pillow mesh with the two-hit ray, the surviving
distances are nonempty, and the characterization applies. -/
theorem C5_check_wall_thickness_characterization_witness :
    ∃ dmin, dmin ∈ validDistances pillow [(0, 1), (0, 2)] ∧
      (∀ d ∈ validDistances pillow [(0, 1), (0, 2)], dmin ≤ d) ∧
      check_wall_thickness pillow MIN_WALL_THICKNESS_MM [(0, 1), (0, 2)] =
        { min_thickness := some (round3 dmin)
          avg_thickness :=
            some (round3 ((validDistances pillow [(0, 1), (0, 2)]).sum /
              (validDistances pillow [(0, 1), (0, 2)]).length))
          thin_areas :=
            (validDistances pillow [(0, 1), (0, 2)]).countP
              (fun d => decide (d < MIN_WALL_THICKNESS_MM))
          passes := decide (MIN_WALL_THICKNESS_MM ≤ dmin)
          rayFailure := none } ∧
      ((check_wall_thickness pillow MIN_WALL_THICKNESS_MM [(0, 1), (0, 2)]).passes = true ↔
        ∀ d ∈ validDistances pillow [(0, 1), (0, 2)], MIN_WALL_THICKNESS_MM ≤ d) :=
  (C5_check_wall_thickness_characterization pillow MIN_WALL_THICKNESS_MM [(0, 1), (0, 2)]).2
    (by
      have : validDistances pillow [(0, 1), (0, 2)] = [1, 2] := by
        norm_num [validDistances, keepThickness, meshScaleSq, pillow, qFoldMax, qFoldMin,
          List.filter]
      rw [this]
      exact List.cons_ne_nil 1 [2])

/-- Counterexample for C1: the claim says a ray-casting backend failure
during validation of a watertight mesh leaves the wall-thickness field
omitted rather than populated with a passing result.  On the watertight
tetrahedron with a failing backend, `validate` populates the field with a
record whose passes flag is true (the code stores
`{"passes": True, "error": str(e)}`), so the field is neither omitted nor
non-passing. -/
theorem C1_counterexample_error_populates_passing_field :
    is_watertight tet = true ∧
    (validate tet (Except.error "ray down")).wall_thickness =
      some { min_thickness := none, avg_thickness := none, thin_areas := 0,
             passes := true, rayFailure := some "ray down" } ∧
    (validate tet (Except.error "ray down")).wall_thickness ≠ none ∧
    ((validate tet (Except.error "ray down")).wall_thickness.map WallResult.passes ≠
      some false) := by
  have hw : is_watertight tet = true := by decide
  refine ⟨hw, ?_, ?_, ?_⟩
  · simp [validate, hw]
  · simp [validate, hw]
  · simp [validate, hw]

/-- C1 as amended: `validate` is a total function of the mesh and the
backend outcome — it reports the watertightness, manifoldness, degenerate
count and their conjunction `is_valid` in every case; with a failing
ray-casting backend on a watertight mesh it still returns a report, but the
wall-thickness field is populated with a record marked passing that carries
the error message, rather than being omitted; on a non-watertight mesh the
field is omitted and the backend is never consulted. -/
theorem C1_validate_total_with_passing_error_stub (m : Mesh)
    (ray : Except String (List (ℕ × ℚ))) :
    (validate m ray).watertight = is_watertight m ∧
    (validate m ray).manifold = is_manifold m ∧
    (validate m ray).degenerate_faces = has_degenerate_faces m ∧
    (validate m ray).is_valid =
      (is_watertight m && is_manifold m && (has_degenerate_faces m == 0)) ∧
    (is_watertight m = false → (validate m ray).wall_thickness = none) ∧
    (∀ hits, ray = Except.ok hits → is_watertight m = true →
      (validate m ray).wall_thickness =
        some (check_wall_thickness m MIN_WALL_THICKNESS_MM hits)) ∧
    (∀ e, ray = Except.error e → is_watertight m = true →
      (validate m ray).wall_thickness =
        some { min_thickness := none, avg_thickness := none, thin_areas := 0,
               passes := true, rayFailure := some e }) := by
  refine ⟨rfl, rfl, rfl, rfl, ?_, ?_, ?_⟩
  · intro hw
    simp [validate, hw]
  · intro hits hray hw
    subst hray
    simp [validate, hw]
  · intro e hray hw
    subst hray
    simp [validate, hw]

/-- Witness for C1: the amended theorem applied to the watertight
tetrahedron and a concrete backend failure. -/
theorem C1_validate_total_with_passing_error_stub_witness :
    (validate tet (Except.error "boom")).wall_thickness =
      some { min_thickness := none, avg_thickness := none, thin_areas := 0,
             passes := true, rayFailure := some "boom" } :=
  (C1_validate_total_with_passing_error_stub tet (Except.error "boom")).2.2.2.2.2.2
    "boom" rfl (by decide)

/-- JSON-ish values stored in a job record.  The job service serializes dicts
of strings, integers, nulls and lists; the claims only inspect string and
integer fields, and timestamps (`datetime.utcnow().isoformat()`) are embedded
as the integer clock value supplied to the operation. -/
inductive JVal where
  | jstr : String → JVal
  | jint : ℤ → JVal
  | jnull : JVal
deriving DecidableEq, Repr

/-- A job record: the decoded JSON dict, as an association list in insertion
order (Python dicts preserve insertion order). -/
abbrev JobRec := List (String × JVal)

/-- Embedding of `dict[k] = v` on a record: replaces the value of an existing
key in place, appends a new key at the end. -/
def setField (r : JobRec) (k : String) (v : JVal) : JobRec :=
  if r.any (fun p => p.1 == k) then
    r.map (fun p => if p.1 == k then (k, v) else p)
  else r ++ [(k, v)]

/-- Embedding of Python `dict.update`: set every update field in order. -/
def mergeFields (r : JobRec) (upds : JobRec) : JobRec :=
  upds.foldl (fun acc kv => setField acc kv.1 kv.2) r

/-- A Redis value with its absolute expiry instant (every key this service
writes is written with `setex`, so every entry carries an expiry). -/
structure StoreEntry where
  value : JobRec
  expireAt : ℕ
deriving DecidableEq, Repr

/-- The Redis keyspace. -/
structure Store where
  entries : List (String × StoreEntry)
deriving DecidableEq, Repr

/-- Raw keyspace lookup, ignoring expiry. -/
def lookupEntry (s : Store) (k : String) : Option StoreEntry :=
  s.entries.lookup k

/-- Embedding of `redis.get` at integer time t: an entry at or past its
expiry instant behaves as absent. -/
def redisGet (s : Store) (t : ℕ) (k : String) : Option JobRec :=
  match lookupEntry s k with
  | none => none
  | some e => if t < e.expireAt then some e.value else none

/-- Embedding of `redis.ttl`: remaining seconds for a live key, -2 for an
absent or expired key. -/
def redisTTL (s : Store) (t : ℕ) (k : String) : ℤ :=
  match lookupEntry s k with
  | none => -2
  | some e => if t < e.expireAt then (e.expireAt : ℤ) - t else -2

/-- Embedding of `redis.setex`: store the value with expiry t + ttl. -/
def redisSetex (s : Store) (t : ℕ) (k : String) (ttl : ℕ) (v : JobRec) : Store :=
  { entries := (k, { value := v, expireAt := t + ttl }) ::
      s.entries.filter (fun p => !(p.1 == k)) }

/-- `Config.JOB_EXPIRY_SECONDS` (24 hours). -/
def JOB_EXPIRY_SECONDS : ℕ := 24 * 60 * 60

/-- Embedding of `JobService._get_key` with its `job:` key prefix string. -/
def jobKey (job_id : String) : String :=
  "job:" ++ job_id

/-- Embedding of `JobService.get_job` (sans JSON decoding, which the record
embedding absorbs). -/
def get_job (s : Store) (t : ℕ) (job_id : String) : Option JobRec :=
  redisGet s t (jobKey job_id)

/-- The read phase of `JobService.update_job`: the `self.get_job(job_id)`
call, a separate Redis round trip. -/
def update_job_read (s : Store) (t : ℕ) (job_id : String) : Option JobRec :=
  get_job s t job_id

/-- The write phase of `JobService.update_job` applied to a previously
captured record: merge the updates, overwrite `updated_at` with the clock,
query the remaining TTL and `setex` the merged record with it (or with the
default expiry if it is not positive). -/
def update_job_write (s : Store) (t : ℕ) (job_id : String) (captured : JobRec)
    (updates : JobRec) : Store × JobRec :=
  let merged := setField (mergeFields captured updates) "updated_at" (JVal.jint t)
  let k := jobKey job_id
  let ttl := redisTTL s t k
  if 0 < ttl then (redisSetex s t k ttl.toNat merged, merged)
  else (redisSetex s t k JOB_EXPIRY_SECONDS merged, merged)

/-- Embedding of `JobService.update_job`: the sequential composition of the
read phase and the write phase; absent or expired jobs yield None with no
write. -/
def update_job (s : Store) (t : ℕ) (job_id : String) (updates : JobRec) :
    Store × Option JobRec :=
  match update_job_read s t job_id with
  | none => (s, none)
  | some job =>
    let sw := update_job_write s t job_id job updates
    (sw.1, some sw.2)

/-- Embedding of `JobService.update_progress`: update with the clamped
progress `min(100, max(0, progress))`. -/
def update_progress (s : Store) (t : ℕ) (job_id : String) (progress : ℤ) :
    Store × Option JobRec :=
  update_job s t job_id [("progress", JVal.jint (min 100 (max 0 progress)))]

theorem lookup_map_set (k : String) (v : JVal) :
    ∀ r : JobRec, r.any (fun p => p.1 == k) = true →
      (r.map (fun p => if p.1 == k then (k, v) else p)).lookup k = some v := by
  intro r
  induction r with
  | nil => intro h; simp at h
  | cons p r ih =>
    obtain ⟨k1, v1⟩ := p
    intro hany
    by_cases hp : k1 = k
    · subst hp
      simp [List.lookup_cons]
    · have hpb : (k1 == k) = false := beq_eq_false_iff_ne.mpr hp
      have hkb : (k == k1) = false := beq_eq_false_iff_ne.mpr (Ne.symm hp)
      have hr : r.any (fun p => p.1 == k) = true := by
        simp only [List.any_cons, hpb, Bool.false_or] at hany
        exact hany
      simp only [List.map_cons, hpb, Bool.false_eq_true, if_false, List.lookup_cons, hkb]
      exact ih hr

theorem lookup_append_set (k : String) (v : JVal) :
    ∀ r : JobRec, r.any (fun p => p.1 == k) = false →
      (r ++ [(k, v)]).lookup k = some v := by
  intro r
  induction r with
  | nil => simp [List.lookup_cons]
  | cons p r ih =>
    obtain ⟨k1, v1⟩ := p
    intro hany
    simp only [List.any_cons, Bool.or_eq_false_iff] at hany
    have hkb : (k == k1) = false := by
      rcases Bool.eq_false_iff.mp hany.1 with h
      have : k1 ≠ k := fun he => h (beq_iff_eq.mpr he)
      exact beq_eq_false_iff_ne.mpr (Ne.symm this)
    simp only [List.cons_append, List.lookup_cons, hkb]
    exact ih hany.2

theorem lookup_setField_self (r : JobRec) (k : String) (v : JVal) :
    (setField r k v).lookup k = some v := by
  rw [setField]
  split
  · next hany => exact lookup_map_set k v r hany
  · next hany => exact lookup_append_set k v r (Bool.eq_false_iff.mpr hany)

theorem lookup_map_set_other (k k2 : String) (v : JVal) (h : k2 ≠ k) :
    ∀ r : JobRec,
      (r.map (fun p => if p.1 == k then (k, v) else p)).lookup k2 = r.lookup k2 := by
  have hk2 : (k2 == k) = false := beq_eq_false_iff_ne.mpr h
  intro r
  induction r with
  | nil => rfl
  | cons p r ih =>
    obtain ⟨k1, v1⟩ := p
    by_cases hp : k1 = k
    · subst hp
      simp only [List.map_cons, beq_self_eq_true, if_true, List.lookup_cons, hk2]
      rw [ih]
    · have hpb : (k1 == k) = false := beq_eq_false_iff_ne.mpr hp
      simp only [List.map_cons, hpb, Bool.false_eq_true, if_false, List.lookup_cons]
      by_cases hq : k2 = k1
      · simp [beq_iff_eq.mpr hq]
      · have hqb : (k2 == k1) = false := beq_eq_false_iff_ne.mpr hq
        simp only [hqb, Bool.false_eq_true, if_false]
        rw [ih]

theorem lookup_append_other (k k2 : String) (v : JVal) (h : k2 ≠ k) :
    ∀ r : JobRec, (r ++ [(k, v)]).lookup k2 = r.lookup k2 := by
  have hk2 : (k2 == k) = false := beq_eq_false_iff_ne.mpr h
  intro r
  induction r with
  | nil => simp [List.lookup_cons, hk2]
  | cons p r ih =>
    obtain ⟨k1, v1⟩ := p
    by_cases hq : k2 = k1
    · simp [List.lookup_cons, beq_iff_eq.mpr hq]
    · have hqb : (k2 == k1) = false := beq_eq_false_iff_ne.mpr hq
      simp only [List.cons_append, List.lookup_cons, hqb, Bool.false_eq_true, if_false]
      rw [ih]

theorem lookup_setField_other (r : JobRec) (k k2 : String) (v : JVal) (h : k2 ≠ k) :
    (setField r k v).lookup k2 = r.lookup k2 := by
  rw [setField]
  split
  · exact lookup_map_set_other k k2 v h r
  · exact lookup_append_other k k2 v h r

theorem lookup_none_of_not_key (k : String) :
    ∀ l : JobRec, k ∉ l.map Prod.fst → l.lookup k = none := by
  intro l
  induction l with
  | nil => intro _; rfl
  | cons p l ih =>
    obtain ⟨k1, v1⟩ := p
    intro h
    have h1 : k ≠ k1 := by
      intro he
      exact h (by simp [he])
    have h2 : k ∉ l.map Prod.fst := by
      intro hm
      exact h (by simp [hm])
    simp only [List.lookup_cons, beq_eq_false_iff_ne.mpr h1, Bool.false_eq_true, if_false]
    exact ih h2

theorem lookup_mergeFields_none (k : String) :
    ∀ (upds r : JobRec), upds.lookup k = none →
      (mergeFields r upds).lookup k = r.lookup k := by
  intro upds
  induction upds with
  | nil => intro r _; rfl
  | cons p rest ih =>
    obtain ⟨k1, v1⟩ := p
    intro r h
    simp only [List.lookup_cons] at h
    by_cases hk : k = k1
    · simp [beq_iff_eq.mpr hk] at h
    · have hkb : (k == k1) = false := beq_eq_false_iff_ne.mpr hk
      simp only [hkb, Bool.false_eq_true, if_false] at h
      have hstep : mergeFields r ((k1, v1) :: rest) = mergeFields (setField r k1 v1) rest := rfl
      rw [hstep, ih (setField r k1 v1) h, lookup_setField_other r k1 k v1 hk]

theorem lookup_mergeFields_some (k : String) (v : JVal) :
    ∀ upds : JobRec, (upds.map Prod.fst).Nodup → upds.lookup k = some v →
      ∀ r, (mergeFields r upds).lookup k = some v := by
  intro upds
  induction upds with
  | nil => intro _ h; simp at h
  | cons p rest ih =>
    obtain ⟨k1, v1⟩ := p
    intro hnd h r
    have hnd1 : (k1 :: rest.map Prod.fst).Nodup := by
      simpa only [List.map_cons] using hnd
    have hnd2 := List.nodup_cons.mp hnd1
    have hstep : mergeFields r ((k1, v1) :: rest) = mergeFields (setField r k1 v1) rest := rfl
    simp only [List.lookup_cons] at h
    by_cases hk : k = k1
    · subst hk
      simp only [beq_self_eq_true, if_true, Option.some.injEq] at h
      subst h
      have hrest : rest.lookup k = none := lookup_none_of_not_key k rest hnd2.1
      rw [hstep, lookup_mergeFields_none k rest _ hrest, lookup_setField_self]
    · have hkb : (k == k1) = false := beq_eq_false_iff_ne.mpr hk
      simp only [hkb, Bool.false_eq_true, if_false] at h
      rw [hstep]
      exact ih hnd2.2 h (setField r k1 v1)

/-- Core behaviour of `update_job` on a live entry and on a missing job;
shared by the claims about the job store. -/
theorem update_job_existing_spec (s : Store) (t : ℕ) (id : String)
    (upds : JobRec) :
    (∀ e, lookupEntry s (jobKey id) = some e → t < e.expireAt →
      ∃ rec,
        (update_job s t id upds).2 = some rec ∧
        rec.lookup "updated_at" = some (JVal.jint t) ∧
        ((upds.map Prod.fst).Nodup → ∀ k v, upds.lookup k = some v → k ≠ "updated_at" →
          rec.lookup k = some v) ∧
        (∀ k, upds.lookup k = none → k ≠ "updated_at" →
          rec.lookup k = e.value.lookup k) ∧
        lookupEntry (update_job s t id upds).1 (jobKey id) =
          some { value := rec, expireAt := e.expireAt }) ∧
    (get_job s t id = none → update_job s t id upds = (s, none)) := by
  constructor
  · intro e he ht
    have hget : update_job_read s t id = some e.value := by
      rw [update_job_read, get_job, redisGet, he]
      simp [ht]
    have httl : redisTTL s t (jobKey id) = (e.expireAt : ℤ) - t := by
      rw [redisTTL, he]
      simp [ht]
    have hpos : (0 : ℤ) < (e.expireAt : ℤ) - t := by
      have : (t : ℤ) < e.expireAt := by exact_mod_cast ht
      omega
    refine ⟨setField (mergeFields e.value upds) "updated_at" (JVal.jint t), ?_, ?_, ?_, ?_, ?_⟩
    · rw [update_job, hget]
      simp only [update_job_write, httl, hpos, if_true]
    · exact lookup_setField_self _ _ _
    · intro hnd k v hv hk
      rw [lookup_setField_other _ _ _ _ hk]
      exact lookup_mergeFields_some k v upds hnd hv e.value
    · intro k hv hk
      rw [lookup_setField_other _ _ _ _ hk]
      exact lookup_mergeFields_none k upds e.value hv
    · rw [update_job, hget]
      simp only [update_job_write, httl, hpos, if_true]
      rw [redisSetex, lookupEntry]
      simp only [List.lookup_cons, beq_self_eq_true, if_true, Option.some.injEq]
      have hexp : t + ((e.expireAt : ℤ) - t).toNat = e.expireAt := by omega
      rw [hexp]
  · intro hnone
    rw [update_job, update_job_read, hnone]

/-- C3: updating an existing, unexpired job merges exactly the given fields
into the stored record, overwrites `updated_at` with the current clock, and
rewrites the entry with its remaining TTL, so the absolute expiry instant is
unchanged — the TTL is neither shrunk nor extended; an absent or expired job
yields None and nothing is written.  (In the embedding every job entry
carries an expiry because every write uses `setex`, so the remaining TTL of
a live entry is always determinable and positive and the default-expiry
reset branch of the code is unreachable for a record the read phase
returned.) -/
theorem C3_update_job_merges_and_preserves_expiry (s : Store) (t : ℕ) (id : String)
    (upds : JobRec) :
    (∀ e, lookupEntry s (jobKey id) = some e → t < e.expireAt →
      ∃ rec,
        (update_job s t id upds).2 = some rec ∧
        rec.lookup "updated_at" = some (JVal.jint t) ∧
        ((upds.map Prod.fst).Nodup → ∀ k v, upds.lookup k = some v → k ≠ "updated_at" →
          rec.lookup k = some v) ∧
        (∀ k, upds.lookup k = none → k ≠ "updated_at" →
          rec.lookup k = e.value.lookup k) ∧
        lookupEntry (update_job s t id upds).1 (jobKey id) =
          some { value := rec, expireAt := e.expireAt }) ∧
    (get_job s t id = none → update_job s t id upds = (s, none)) :=
  update_job_existing_spec s t id upds

/-- A small live store with one job, used by the job-store witnesses. -/
def demoStore : Store :=
  { entries := [("job:a",
      { value := [("status", JVal.jstr "uploaded"), ("progress", JVal.jint 0)],
        expireAt := 100 })] }

/-- Witness for C3: updating the live job of `demoStore` at time 10. -/
theorem C3_update_job_merges_and_preserves_expiry_witness :
    ∃ rec,
      (update_job demoStore 10 "a" [("status", JVal.jstr "done")]).2 = some rec ∧
      rec.lookup "updated_at" = some (JVal.jint 10) ∧
      ((([("status", JVal.jstr "done")] : JobRec).map Prod.fst).Nodup →
        ∀ k v, ([("status", JVal.jstr "done")] : JobRec).lookup k = some v →
          k ≠ "updated_at" → rec.lookup k = some v) ∧
      (∀ k, ([("status", JVal.jstr "done")] : JobRec).lookup k = none →
        k ≠ "updated_at" →
        rec.lookup k =
          ([("status", JVal.jstr "uploaded"), ("progress", JVal.jint 0)] : JobRec).lookup k) ∧
      lookupEntry (update_job demoStore 10 "a" [("status", JVal.jstr "done")]).1
          (jobKey "a") =
        some { value := rec, expireAt := 100 } :=
  (C3_update_job_merges_and_preserves_expiry demoStore 10 "a"
      [("status", JVal.jstr "done")]).1
    { value := [("status", JVal.jstr "uploaded"), ("progress", JVal.jint 0)],
      expireAt := 100 }
    (by decide) (by decide)

/-- A live store with one job, used by the interleaving counterexample. -/
def lostStore : Store :=
  { entries := [("job:b",
      { value := [("progress", JVal.jint 0), ("status", JVal.jstr "uploaded")],
        expireAt := 100 })] }

/-- Counterexample for C9: `update_job` is a plain Redis GET followed by a
separate SETEX with no lock, transaction or WATCH, so its read and write do
not form a critical section.  Two callers both read the same job, then both
write: the progress update of the first writer is absent from the final
record — it is overwritten by the second writer's copy of the original
record, exhibiting the lost update the claim rules out. -/
theorem C9_counterexample_lost_update :
    update_job_read lostStore 10 "b" =
      some [("progress", JVal.jint 0), ("status", JVal.jstr "uploaded")] ∧
    (get_job
        ((update_job_write
          ((update_job_write lostStore 10 "b"
            [("progress", JVal.jint 0), ("status", JVal.jstr "uploaded")]
            [("progress", JVal.jint 50)]).1) 10 "b"
          [("progress", JVal.jint 0), ("status", JVal.jstr "uploaded")]
          [("status", JVal.jstr "done")]).1) 10 "b").map
        (fun r => r.lookup "progress") = some (some (JVal.jint 0)) ∧
    some (some (JVal.jint 0)) ≠ some (some (JVal.jint 50)) := by
  refine ⟨by decide, by decide, by decide⟩

/-- C9 as amended: the store's update primitive is not atomic — it is a read
phase (GET) followed by an independent write phase (SETEX) keyed per job id
with no critical section.  When two updates interleave as read, read, write,
write, the final record is the one the second writer computed from its own
captured copy: on every field the second update does not set, the final
value is the originally read value, so whatever the first update wrote there
is lost. -/
theorem C9_read_write_not_atomic (s : Store) (t : ℕ) (id : String)
    (j u1 u2 : JobRec) (_hread : update_job_read s t id = some j) :
    ∃ e2,
      lookupEntry
          ((update_job_write ((update_job_write s t id j u1).1) t id j u2).1)
          (jobKey id) = some e2 ∧
      e2.value = setField (mergeFields j u2) "updated_at" (JVal.jint t) ∧
      (∀ k, u2.lookup k = none → k ≠ "updated_at" →
        e2.value.lookup k = j.lookup k) := by
  have hlost : ∀ k, u2.lookup k = none → k ≠ "updated_at" →
      (setField (mergeFields j u2) "updated_at" (JVal.jint t)).lookup k = j.lookup k := by
    intro k hk hk2
    rw [lookup_setField_other _ _ _ _ hk2]
    exact lookup_mergeFields_none k u2 j hk
  by_cases hp : 0 < redisTTL ((update_job_write s t id j u1).1) t (jobKey id)
  · refine ⟨StoreEntry.mk (setField (mergeFields j u2) "updated_at" (JVal.jint t))
      (t + (redisTTL ((update_job_write s t id j u1).1) t (jobKey id)).toNat),
      ?_, rfl, hlost⟩
    rw [update_job_write]
    simp only [hp, if_true]
    rw [redisSetex, lookupEntry]
    simp [List.lookup_cons]
  · refine ⟨StoreEntry.mk (setField (mergeFields j u2) "updated_at" (JVal.jint t))
      (t + JOB_EXPIRY_SECONDS), ?_, rfl, hlost⟩
    rw [update_job_write]
    simp only [hp, if_false]
    rw [redisSetex, lookupEntry]
    simp [List.lookup_cons]

/-- Witness for C9: the interleaved run on `lostStore`. -/
theorem C9_read_write_not_atomic_witness :
    ∃ e2,
      lookupEntry
          ((update_job_write
            ((update_job_write lostStore 10 "b"
              [("progress", JVal.jint 0), ("status", JVal.jstr "uploaded")]
              [("progress", JVal.jint 50)]).1) 10 "b"
            [("progress", JVal.jint 0), ("status", JVal.jstr "uploaded")]
            [("status", JVal.jstr "done")]).1)
          (jobKey "b") = some e2 ∧
      e2.value = setField
        (mergeFields [("progress", JVal.jint 0), ("status", JVal.jstr "uploaded")]
          [("status", JVal.jstr "done")])
        "updated_at" (JVal.jint 10) ∧
      (∀ k, ([("status", JVal.jstr "done")] : JobRec).lookup k = none →
        k ≠ "updated_at" →
        e2.value.lookup k =
          ([("progress", JVal.jint 0), ("status", JVal.jstr "uploaded")] : JobRec).lookup k) :=
  C9_read_write_not_atomic lostStore 10 "b"
    [("progress", JVal.jint 0), ("status", JVal.jstr "uploaded")]
    [("progress", JVal.jint 50)] [("status", JVal.jstr "done")] (by decide)

/-- C10: for an existing unexpired job and any integer p, `update_progress`
stores `min(100, max(0, p))` as the progress field, which always lies
between 0 and 100; an absent or expired job yields None and no write. -/
theorem C10_update_progress_clamped (s : Store) (t : ℕ) (id : String) (p : ℤ) :
    (∀ e, lookupEntry s (jobKey id) = some e → t < e.expireAt →
      ∃ rec, (update_progress s t id p).2 = some rec ∧
        rec.lookup "progress" = some (JVal.jint (min 100 (max 0 p))) ∧
        0 ≤ min 100 (max 0 p) ∧ min 100 (max 0 p) ≤ 100) ∧
    (get_job s t id = none → update_progress s t id p = (s, none)) := by
  have hcore := update_job_existing_spec s t id
    [("progress", JVal.jint (min 100 (max 0 p)))]
  constructor
  · intro e he ht
    obtain ⟨rec, hres, _, hsome, _, _⟩ := hcore.1 e he ht
    refine ⟨rec, hres, ?_, ?_, ?_⟩
    · refine hsome (by simp) "progress" (JVal.jint (min 100 (max 0 p))) ?_ (by decide)
      simp [List.lookup_cons]
    · omega
    · omega
  · intro hnone
    exact hcore.2 hnone

/-- Witness for C10: clamping a negative progress value on the live job of
`lostStore`. -/
theorem C10_update_progress_clamped_witness :
    ∃ rec, (update_progress lostStore 10 "b" (-7)).2 = some rec ∧
      rec.lookup "progress" = some (JVal.jint (min 100 (max 0 (-7)))) ∧
      0 ≤ min 100 (max 0 (-7 : ℤ)) ∧ min 100 (max 0 (-7 : ℤ)) ≤ 100 :=
  (C10_update_progress_clamped lostStore 10 "b" (-7)).1
    { value := [("progress", JVal.jint 0), ("status", JVal.jstr "uploaded")],
      expireAt := 100 }
    (by decide) (by decide)

/-- A file-system path split as parent directory (list of segments) and file
name, the embedding of the `Path(output_path)` the converter builds. -/
structure TargetPath where
  parent : List String
  fname : String
deriving DecidableEq, Repr

/-- The bytes an export writes, tagged by format and options, embedding the
`file_type` / `include_normals` / `encoding` arguments the converter passes
to `mesh.export`. -/
inductive ExportContent where
  | stlData : Mesh → ExportContent
  | objData : Mesh → Bool → ExportContent
  | plyData : Mesh → String → ExportContent
deriving DecidableEq, Repr

/-- The file system visible to the converter: which directories exist, which
of them the process may write into, and the regular files present. -/
structure FileSys where
  dirs : List (List String)
  writableDirs : List (List String)
  files : List (TargetPath × ExportContent)
deriving DecidableEq, Repr

/-- Modelled from the spec and POSIX file-opening semantics, which is what
`trimesh.exchange.export.export_mesh` does with the path it is handed: open
the target for writing — raising FileNotFoundError when the parent directory
does not exist and PermissionError when it is not writable — then replace
the file content whole.  The converter itself performs no directory
creation. -/
def openWriteFile (fs : FileSys) (p : TargetPath) (c : ExportContent) :
    Except String FileSys :=
  if p.parent ∈ fs.dirs then
    if p.parent ∈ fs.writableDirs then
      Except.ok { fs with files := (p, c) :: fs.files.filter (fun q => !(q.1 == p)) }
    else Except.error "PermissionError"
  else Except.error "FileNotFoundError"

/-- Embedding of `MeshConverter.to_stl`: export, return the path; the
`except` block logs and re-raises, so errors propagate unchanged. -/
def to_stl (fs : FileSys) (m : Mesh) (p : TargetPath) :
    Except String (FileSys × TargetPath) :=
  match openWriteFile fs p (ExportContent.stlData m) with
  | Except.ok fs2 => Except.ok (fs2, p)
  | Except.error e => Except.error e

/-- Embedding of `MeshConverter.to_obj` with its `include_normals` option. -/
def to_obj (fs : FileSys) (m : Mesh) (nrm : Bool) (p : TargetPath) :
    Except String (FileSys × TargetPath) :=
  match openWriteFile fs p (ExportContent.objData m nrm) with
  | Except.ok fs2 => Except.ok (fs2, p)
  | Except.error e => Except.error e

/-- Embedding of `MeshConverter.to_ply`, which selects the encoding string
from its `binary` flag. -/
def to_ply (fs : FileSys) (m : Mesh) (bin : Bool) (p : TargetPath) :
    Except String (FileSys × TargetPath) :=
  match openWriteFile fs p (ExportContent.plyData m (if bin then "binary" else "ascii")) with
  | Except.ok fs2 => Except.ok (fs2, p)
  | Except.error e => Except.error e

/-- A file system whose only directory is the (writable) root. -/
def emptyRootFs : FileSys :=
  { dirs := [[]], writableDirs := [[]], files := [] }

/-- A target path whose parent directory does not exist in `emptyRootFs`. -/
def missingParentPath : TargetPath :=
  { parent := ["exports"], fname := "model.stl" }

/-- Counterexample for C4: the claim says the export operations create the
target path's missing parent directories before writing.  `to_stl` (like
`to_obj` and `to_ply`) performs no directory creation: on a target whose
parent directory is absent it raises instead of creating the directory and
writing. -/
theorem C4_counterexample_no_directory_creation :
    to_stl emptyRootFs tet missingParentPath = Except.error "FileNotFoundError" ∧
    ¬∃ fs2, to_stl emptyRootFs tet missingParentPath = Except.ok (fs2, missingParentPath) ∧
      missingParentPath.parent ∈ fs2.dirs := by
  constructor
  · rfl
  · rintro ⟨fs2, h, _⟩
    rw [show to_stl emptyRootFs tet missingParentPath =
        Except.error "FileNotFoundError" from rfl] at h
    cases h

/-- C4 as amended: the export operations write into an existing parent
directory and raise rather than silently truncate on failure — raising
FileNotFoundError when the parent is missing (they create no directories;
the export task creates the directory before calling them) and
PermissionError when the parent is unwritable; with an existing writable
parent they return the path and the file holds the full exported content. -/
theorem C4_export_raises_without_writable_parent (fs : FileSys) (m : Mesh)
    (nrm bin : Bool) (p : TargetPath) :
    (p.parent ∉ fs.dirs →
      to_stl fs m p = Except.error "FileNotFoundError" ∧
      to_obj fs m nrm p = Except.error "FileNotFoundError" ∧
      to_ply fs m bin p = Except.error "FileNotFoundError") ∧
    (p.parent ∈ fs.dirs → p.parent ∉ fs.writableDirs →
      to_stl fs m p = Except.error "PermissionError" ∧
      to_obj fs m nrm p = Except.error "PermissionError" ∧
      to_ply fs m bin p = Except.error "PermissionError") ∧
    (p.parent ∈ fs.dirs → p.parent ∈ fs.writableDirs →
      (∃ fs2, to_stl fs m p = Except.ok (fs2, p) ∧
        fs2.files.lookup p = some (ExportContent.stlData m) ∧ fs2.dirs = fs.dirs) ∧
      (∃ fs2, to_obj fs m nrm p = Except.ok (fs2, p) ∧
        fs2.files.lookup p = some (ExportContent.objData m nrm) ∧ fs2.dirs = fs.dirs) ∧
      (∃ fs2, to_ply fs m bin p = Except.ok (fs2, p) ∧
        fs2.files.lookup p =
          some (ExportContent.plyData m (if bin then "binary" else "ascii")) ∧
        fs2.dirs = fs.dirs)) := by
  refine ⟨?_, ?_, ?_⟩
  · intro hd
    refine ⟨?_, ?_, ?_⟩ <;>
      simp [to_stl, to_obj, to_ply, openWriteFile, hd]
  · intro hd hw
    refine ⟨?_, ?_, ?_⟩ <;>
      simp [to_stl, to_obj, to_ply, openWriteFile, hd, hw]
  · intro hd hw
    refine
      ⟨⟨{ fs with files := (p, ExportContent.stlData m) ::
            fs.files.filter (fun q => !(q.1 == p)) }, ?_, ?_, rfl⟩,
       ⟨{ fs with files := (p, ExportContent.objData m nrm) ::
            fs.files.filter (fun q => !(q.1 == p)) }, ?_, ?_, rfl⟩,
       ⟨{ fs with files := (p, ExportContent.plyData m (if bin then "binary" else "ascii")) ::
            fs.files.filter (fun q => !(q.1 == p)) }, ?_, ?_, rfl⟩⟩ <;>
      simp [to_stl, to_obj, to_ply, openWriteFile, hd, hw, List.lookup_cons]

/-- A file system with a writable exports directory. -/
def okFs : FileSys :=
  { dirs := [[], ["exports"]], writableDirs := [["exports"]], files := [] }

/-- Witness for C4: exporting into the existing writable directory of
`okFs` succeeds for the three formats. -/
theorem C4_export_raises_without_writable_parent_witness :
    (∃ fs2, to_stl okFs tet { parent := ["exports"], fname := "m.stl" } =
        Except.ok (fs2, { parent := ["exports"], fname := "m.stl" }) ∧
      fs2.files.lookup { parent := ["exports"], fname := "m.stl" } =
        some (ExportContent.stlData tet) ∧ fs2.dirs = okFs.dirs) ∧
    (∃ fs2, to_obj okFs tet true { parent := ["exports"], fname := "m.stl" } =
        Except.ok (fs2, { parent := ["exports"], fname := "m.stl" }) ∧
      fs2.files.lookup { parent := ["exports"], fname := "m.stl" } =
        some (ExportContent.objData tet true) ∧ fs2.dirs = okFs.dirs) ∧
    (∃ fs2, to_ply okFs tet true { parent := ["exports"], fname := "m.stl" } =
        Except.ok (fs2, { parent := ["exports"], fname := "m.stl" }) ∧
      fs2.files.lookup { parent := ["exports"], fname := "m.stl" } =
        some (ExportContent.plyData tet (if true then "binary" else "ascii")) ∧
      fs2.dirs = okFs.dirs) :=
  (C4_export_raises_without_writable_parent okFs tet true true
      { parent := ["exports"], fname := "m.stl" }).2.2
    (by decide) (by decide)
